import Mathlib

/-!
A verification development for the PLN consumption-drop dashboard
(`PLNDashboard.py`).  The analytic core of the program is embedded
shallowly:

* `parse_date_from_colname` — the four-pattern date extractor used to
  classify monthly reading columns (regex searches are embedded as
  explicit left-to-right scans with the same ordered-alternation and
  greedy semantics as Python `re.search` for these concrete patterns);
* `find_column_by_keywords` — keyword-based column discovery;
* `normalize_value_for_compare` — the checklist value normaliser
  (the chain of `re.sub` calls is embedded as character cleaning,
  whitespace tokenisation, token replacement and single-space joining,
  which is what those word-boundary substitutions compute on the
  already-cleaned text);
* `apply_preset` / `sortedColsOf` — the period selector;
* the metric/filter pipeline (`meanCols`, `pctRow`, `dropStage`,
  `opFilter`) and the per-quarter distribution binning
  (`binIndexLe`, `binIndexGe`).

Machine floats of the source are modelled by exact rationals (`ℚ`);
missing values (pandas `NaN`/`NA`) by `Option`.  Character-level
operations model the ASCII fragment that the spreadsheet headers and
checklist vocabulary use.
-/

namespace PLN

/-! ### Character helpers (ASCII model of the Python string primitives) -/

/-- Python `\s` (ASCII fragment): space, tab, newline, carriage return,
vertical tab, form feed. -/
def isWsC (c : Char) : Bool :=
  c = ' ' || c = '\t' || c = '\n' || c = '\r' || c = Char.ofNat 11 || c = Char.ofNat 12

/-- The optional separator class `[-_/]` of the date regexes. -/
def isSepC (c : Char) : Bool :=
  c = '-' || c = '_' || c = '/'

/-- ASCII decimal digit. -/
def isDigitC (c : Char) : Bool :=
  48 ≤ c.toNat && c.toNat ≤ 57

/-- Digit in `[1-9]`. -/
def isD19 (c : Char) : Bool :=
  49 ≤ c.toNat && c.toNat ≤ 57

/-- ASCII letter, the class `[A-Za-z]`. -/
def isAlphaC (c : Char) : Bool :=
  (65 ≤ c.toNat && c.toNat ≤ 90) || (97 ≤ c.toNat && c.toNat ≤ 122)

/-- Lower-case letter or digit, the class `[a-z0-9]`. -/
def isLowerAlnumC (c : Char) : Bool :=
  (97 ≤ c.toNat && c.toNat ≤ 122) || (48 ≤ c.toNat && c.toNat ≤ 57)

/-- Numeric value of a decimal digit character. -/
def dval (c : Char) : Nat := c.toNat - 48

/-- Python `str.lower` on the ASCII fragment. -/
def toLowerC (c : Char) : Char :=
  if 65 ≤ c.toNat ∧ c.toNat ≤ 90 then Char.ofNat (c.toNat + 32) else c

/-- Python `str.upper` on the ASCII fragment. -/
def toUpperC (c : Char) : Char :=
  if 97 ≤ c.toNat ∧ c.toNat ≤ 122 then Char.ofNat (c.toNat - 32) else c

/-- Python `str.strip`: drop leading and trailing whitespace. -/
def stripWs (l : List Char) : List Char :=
  ((l.dropWhile isWsC).reverse.dropWhile isWsC).reverse

/-- `pre` is a prefix of `l` (Python `str.startswith`). -/
def startsWith : List Char → List Char → Bool
  | [], _ => true
  | _ :: _, [] => false
  | a :: as, b :: bs => a = b && startsWith as bs

/-- `pat` occurs as a contiguous substring of `l` (Python `in` on strings). -/
def containsSub (pat : List Char) : List Char → Bool
  | [] => pat.isEmpty
  | c :: rest => startsWith pat (c :: rest) || containsSub pat rest

/-! ### `parse_date_from_colname` (PLNDashboard.py lines 450–487)

The source tries four regexes with `re.search`, in order, and returns
`datetime(y, mm, 1)` of the first match (modelled as the pair
`(y, mm)`), or `None`.  Each regex search is embedded as a scan over
start positions; at a fixed start the candidate matches are tried in
exactly the order Python's backtracking engine tries them. -/

/-- Match `20\d{2}` at the head of the list, returning the year. -/
def yearAt : List Char → Option Nat
  | '2' :: '0' :: c :: d :: _ =>
    if isDigitC c && isDigitC d then some (2000 + 10 * dval c + dval d) else none
  | _ => none

/-- Consume `\s*[-_/]?\s*`: any whitespace, at most one separator, any
whitespace.  Greedy matching is deterministic here because the
whitespace class, the separator class and the digits that must follow
are pairwise disjoint. -/
def skipSepWs (l : List Char) : List Char :=
  let l1 := l.dropWhile isWsC
  let l2 := match l1 with
    | c :: t => if isSepC c then t else l1
    | [] => l1
  l2.dropWhile isWsC

/-- Match the month group `(?P<m>0?[1-9]|1[0-2])` at the head of the
list when nothing further constrains the match (year-first pattern):
the alternation prefers `0?[1-9]`, so `"11"` yields month 1. -/
def monthYF : List Char → Option Nat
  | '0' :: d :: _ => if isD19 d then some (dval d) else none
  | c :: _ => if isD19 c then some (dval c) else none
  | [] => none

/-- Pattern (a) `(?P<y>20\d{2})\s*[-_/]?\s*(?P<m>0?[1-9]|1[0-2])`
anchored at the current start position. -/
def matchAAt : List Char → Option (Nat × Nat)
  | '2' :: '0' :: c :: d :: rest =>
    if isDigitC c && isDigitC d then
      match monthYF (skipSepWs rest) with
      | some m => some (2000 + 10 * dval c + dval d, m)
      | none => none
    else none
  | _ => none

/-- `re.search` for pattern (a): try every start position left to right. -/
def searchA : List Char → Option (Nat × Nat)
  | [] => none
  | c :: rest =>
    match matchAAt (c :: rest) with
    | some ym => some ym
    | none => searchA rest

/-- After a month candidate, match `\s*[-_/]?\s*(?P<y>20\d{2})`. -/
def yearAfter (l : List Char) : Option Nat :=
  yearAt (skipSepWs l)

/-- Pattern (b) `(?P<m>0?[1-9]|1[0-2])\s*[-_/]?\s*(?P<y>20\d{2})`
anchored at the current start position.  Candidate months are tried in
Python's backtracking order: `0?[1-9]` with the `0` consumed, then
`0?[1-9]` with a bare non-zero digit, then `1[0-2]`. -/
def matchBAt : List Char → Option (Nat × Nat)
  | '0' :: d :: rest =>
    if isD19 d then
      match yearAfter rest with
      | some y => some (y, dval d)
      | none => none
    else none
  | c :: rest =>
    if isD19 c then
      match yearAfter rest with
      | some y => some (y, dval c)
      | none =>
        if c = '1' then
          match rest with
          | d2 :: rest2 =>
            if d2 = '0' || d2 = '1' || d2 = '2' then
              match yearAfter rest2 with
              | some y => some (y, 10 + dval d2)
              | none => none
            else none
          | [] => none
        else none
    else none
  | [] => none

/-- `re.search` for pattern (b). -/
def searchB : List Char → Option (Nat × Nat)
  | [] => none
  | c :: rest =>
    match matchBAt (c :: rest) with
    | some ym => some ym
    | none => searchB rest

/-- Pattern (c) `(20\d{2})(0[1-9]|1[0-2])`, contiguous `YYYYMM`,
anchored at the current start position. -/
def matchCAt : List Char → Option (Nat × Nat)
  | '2' :: '0' :: c :: d :: m1 :: m2 :: _ =>
    if isDigitC c && isDigitC d then
      if m1 = '0' && isD19 m2 then
        some (2000 + 10 * dval c + dval d, dval m2)
      else if m1 = '1' && (m2 = '0' || m2 = '1' || m2 = '2') then
        some (2000 + 10 * dval c + dval d, 10 + dval m2)
      else none
    else none
  | _ => none

/-- `re.search` for pattern (c). -/
def searchC : List Char → Option (Nat × Nat)
  | [] => none
  | c :: rest =>
    match matchCAt (c :: rest) with
    | some ym => some ym
    | none => searchC rest

/-- Skip `[^\d]*`: with a digit-initial group following, the greedy
match deterministically stops at the first digit. -/
def yearAtNextDigit (l : List Char) : Option Nat :=
  yearAt (l.dropWhile (fun c => !isDigitC c))

/-- Try the month-name lengths of `[A-Za-z]{3,9}` greedily from `len`
down to 3; each candidate is followed by `[^\d]*(?P<y>20\d{2})`. -/
def tryMonLens (l : List Char) : Nat → Option (List Char × Nat)
  | 0 => none
  | Nat.succ k =>
    if k + 1 < 3 then none
    else
      match yearAtNextDigit (l.drop (k + 1)) with
      | some y => some (l.take (k + 1), y)
      | none => tryMonLens l k

/-- Pattern (d) `(?P<mon>[A-Za-z]{3,9})[^\d]*(?P<y>20\d{2})` anchored
at the current start position; returns the raw `mon` group and the year. -/
def matchDAt (l : List Char) : Option (List Char × Nat) :=
  let run := (l.takeWhile isAlphaC).length
  if run < 3 then none else tryMonLens l (min run 9)

/-- `re.search` for pattern (d). -/
def searchD : List Char → Option (List Char × Nat)
  | [] => none
  | c :: rest =>
    match matchDAt (c :: rest) with
    | some my => some my
    | none => searchD rest

/-- `calendar.month_abbr[1..12]`, lower-cased. -/
def MONTH_ABBRS : List (List Char × Nat) :=
  [("jan".toList, 1), ("feb".toList, 2), ("mar".toList, 3), ("apr".toList, 4),
   ("may".toList, 5), ("jun".toList, 6), ("jul".toList, 7), ("aug".toList, 8),
   ("sep".toList, 9), ("oct".toList, 10), ("nov".toList, 11), ("dec".toList, 12)]

/-- `calendar.month_name[1..12]`, lower-cased. -/
def MONTH_NAMES : List (List Char × Nat) :=
  [("january".toList, 1), ("february".toList, 2), ("march".toList, 3),
   ("april".toList, 4), ("may".toList, 5), ("june".toList, 6),
   ("july".toList, 7), ("august".toList, 8), ("september".toList, 9),
   ("october".toList, 10), ("november".toList, 11), ("december".toList, 12)]

/-- Month-number resolution of the `mon` group (source lines 467–480):
first the 3-letter abbreviation table keyed on `monraw[:3]` (its keys
are exactly 3 letters long, so the source's prefix test is equality),
then the full-name table keyed on `name.startswith(monraw)`. -/
def resolveMon (monraw : List Char) : Option Nat :=
  let p3 := monraw.take 3
  match MONTH_ABBRS.find? (fun ab => ab.1 = p3) with
  | some ab => some ab.2
  | none =>
    match MONTH_NAMES.find? (fun nm => startsWith monraw nm.1) with
    | some nm => some nm.2
    | none => none

/-- `parse_date_from_colname` (source lines 450–487).  The source
returns `datetime(y, mm, 1)`; only the `(year, month)` pair carries
information, so the model returns that pair.  `None` is `none`. -/
def parse_date_from_colname (colname : String) : Option (Nat × Nat) :=
  let c := stripWs colname.toList
  match searchA c with
  | some ym => some ym
  | none =>
    match searchB c with
    | some ym => some ym
    | none =>
      match searchC c with
      | some ym => some ym
      | none =>
        match searchD c with
        | some my =>
          match resolveMon (my.1.map toLowerC) with
          | some mm => some (my.2, mm)
          | none => none
        | none => none

/-! ### `find_column_by_keywords` (source lines 137–157)

First pass: return the first column whose upper-cased text contains
every keyword.  Fallback: a running-maximum scan that updates only on a
strictly larger keyword count (so ties keep the earliest column);
return the best column if it matched at least one keyword, else `none`. -/

/-- `k.upper() in col.upper()` for one keyword. -/
def kwHit (col k : String) : Bool :=
  containsSub (k.toList.map toUpperC) (col.toList.map toUpperC)

/-- `all(k.upper() in up for k in keywords_list)`. -/
def kwAll (kws : List String) (col : String) : Bool :=
  kws.all (fun k => kwHit col k)

/-- `sum(1 for k in keywords_list if k.upper() in up)`. -/
def kwCount (kws : List String) (col : String) : Nat :=
  (kws.filter (fun k => kwHit col k)).length

/-- The fallback loop over the columns, carrying `(best, best_count)`. -/
def bestAux (kws : List String) : List String → Option String × Nat → Option String × Nat
  | [], acc => acc
  | col :: rest, (best, bc) =>
    if kwCount kws col > bc then bestAux kws rest (some col, kwCount kws col)
    else bestAux kws rest (best, bc)

/-- `find_column_by_keywords` on a list of column names. -/
def find_column_by_keywords (cols : List String) (kws : List String) : Option String :=
  match cols.find? (fun col => kwAll kws col) with
  | some col => some col
  | none =>
    let r := bestAux kws cols (none, 0)
    if r.2 > 0 then r.1 else none

/-! ### `normalize_value_for_compare` (source lines 159–180)

The source lower-cases and strips the value, replaces every character
outside `[a-z0-9\s]` by a space, performs five word-boundary token
substitutions, collapses whitespace, and finally applies an ordered
priority chain of containment tests.  After the character cleaning the
string consists of `[a-z0-9]` runs separated by whitespace, so the
`\b…\b` substitutions replace exactly the whitespace-delimited tokens
equal to the pattern, and `re.sub(r'\s+', ' ', s).strip()` joins the
tokens with single spaces; the embedding computes that token pipeline.
The `pd.isna` branch concerns non-string (missing) cells and is outside
this String-to-String model. -/

/-- The character cleaning `re.sub(r'[^a-z0-9\s]', ' ', s)` (applied
after lower-casing): keep lower-case alphanumerics and whitespace,
replace everything else by a space. -/
def cleanSym (c : Char) : Char :=
  if isLowerAlnumC c || isWsC c then c else ' '

/-- Whitespace-delimited tokens (maximal non-whitespace runs). -/
def tokensOf (l : List Char) : List (List Char) :=
  (l.splitOnP isWsC).filter (fun t => !t.isEmpty)

/-- The five token substitutions `tdk→tidak`, `t→tidak`, `y→ya`,
`yes→ya`, `no→tidak`, applied to one whitespace-delimited token.  The
substitutions run sequentially over the whole string in the source, but
no substitution output (`tidak`, `ya`) is itself a pattern token, so
per-token replacement is the same function. -/
def replTok (t : List Char) : List Char :=
  if t = "tdk".toList then "tidak".toList
  else if t = "t".toList then "tidak".toList
  else if t = "y".toList then "ya".toList
  else if t = "yes".toList then "ya".toList
  else if t = "no".toList then "tidak".toList
  else t

/-- Join tokens with single spaces (the effect of
`re.sub(r'\s+', ' ', s).strip()` on the token decomposition). -/
def joinToks : List (List Char) → List Char
  | [] => []
  | [t] => t
  | t :: ts => t ++ ' ' :: joinToks ts

/-- The cleaning pipeline of `normalize_value_for_compare` up to (and
including) the whitespace collapse: strip, lower, clean symbols,
replace tokens, re-join. -/
def cleanPhase (l : List Char) : List Char :=
  joinToks ((tokensOf (((stripWs l).map toLowerC).map cleanSym)).map replTok)

/-- The priority chain of the source (lines 170–180).  The final two
source lines `if s in ['ya','tidak']: return s` / `return s` both
return `s`, so they are a single fall-through case. -/
def canonOf (s : List Char) : List Char :=
  if containsSub "tidak".toList s && containsSub "sesuai".toList s then "tidak sesuai".toList
  else if containsSub "tidak".toList s && containsSub "terawat".toList s then "tidak terawat".toList
  else if containsSub "sesuai".toList s then "sesuai".toList
  else if containsSub "terawat".toList s then "terawat".toList
  else s

/-- `normalize_value_for_compare` on strings. -/
def normalize_value_for_compare (s : String) : String :=
  ⟨canonOf (cleanPhase s.toList)⟩

/-! ### Period selector (source lines 604–638) -/

/-- `apply_preset` (source lines 604–617), acting on the sorted column
list: take the last `n_months` columns (all of them when fewer exist),
split at `n_months // 2`, except that a window of at most that many
elements is split at half its own length. -/
def apply_preset (sorted_cols : List String) (n_months : Nat) : List String × List String :=
  let window :=
    if sorted_cols.length < n_months then sorted_cols
    else sorted_cols.drop (sorted_cols.length - n_months)
  let half := n_months / 2
  let split := if window.length ≤ half then window.length / 2 else half
  (window.take split, window.drop split)

/-- The split rule as the claim words it: split at `n // 2` unless the
window has *fewer* elements than that split point, in which case split
at `window_length // 2`.  (The source uses *at most*, not *fewer*.) -/
def applyPresetClaim (sorted_cols : List String) (n_months : Nat) : List String × List String :=
  let window :=
    if sorted_cols.length < n_months then sorted_cols
    else sorted_cols.drop (sorted_cols.length - n_months)
  let split := if window.length < n_months / 2 then window.length / 2 else n_months / 2
  (window.take split, window.drop split)

/-- Ascending comparison of two `(column, parsed date)` pairs by their
`(year, month)` key, the order `sorted(parsed, key=lambda x: x[1])`
sorts by.  Unparsed entries (impossible among the sorted ones) count as
the smallest key. -/
def dateLe (p q : String × Option (Nat × Nat)) : Bool :=
  let a := p.2.getD (0, 0)
  let b := q.2.getD (0, 0)
  decide (a.1 < b.1 ∨ (a.1 = b.1 ∧ a.2 ≤ b.2))

/-- The `sorted_cols` construction (source lines 621–638): pair every
candidate column with its parsed date, sort the successfully parsed
ones ascending by date and append the unparsed ones in original order;
if nothing parsed, keep the original list. -/
def sortedColsOf (cols : List String) : List String :=
  let colDates := cols.map (fun col => (col, parse_date_from_colname col))
  let parsed := colDates.filter (fun p => p.2.isSome)
  let unparsed := (colDates.filter (fun p => p.2.isNone)).map (fun p => p.1)
  if parsed.isEmpty then cols
  else (parsed.mergeSort dateLe).map (fun p => p.1) ++ unparsed

/-! ### Metric calculator, drop stage, threshold filter (source lines 713–732)

A row is its mapping from column names to already-coerced numeric cell
values; `none` is a cell that was missing or failed
`pd.to_numeric(errors='coerce')`. -/

/-- One spreadsheet row after numeric coercion. -/
abbrev Row := List (String × Option ℚ)

/-- Cell lookup; an absent column is a missing value. -/
def getCell (r : Row) (c : String) : Option ℚ :=
  (List.lookup c r).join

/-- `df[cols].mean(axis=1, skipna=True)` for one row: the mean of the
present values, `NaN` (here `none`) when every value is missing. -/
def meanCols (cols : List String) (r : Row) : Option ℚ :=
  let vs := cols.filterMap (fun c => getCell r c)
  if vs.isEmpty then none else some (vs.sum / (vs.length : ℚ))

/-- `Selisih_Rata2 = (avg1 - avg2) / avg1.replace(0, NA) * 100` for one
row: missing when either average is missing or when `avg1 = 0`. -/
def pctRow (p1 p2 : List String) (r : Row) : Option ℚ :=
  match meanCols p1 r, meanCols p2 r with
  | some a1, some a2 => if a1 = 0 then none else some ((a1 - a2) / a1 * 100)
  | _, _ => none

/-- `df = df[df["Selisih_Rata2"].notna() & (df["Selisih_Rata2"] >= 0)]`:
drop rows with a missing or negative percentage change. -/
def dropStage (p1 p2 : List String) (rows : List Row) : List Row :=
  rows.filter (fun r =>
    match pctRow p1 p2 r with
    | some p => decide (0 ≤ p)
    | none => false)

/-- The operator filter (source lines 727–732).  `"<="` and `">="`
compare directly; every other operator string reaches the `else` branch,
`np.isclose(pct, threshold, atol=tol)`, whose documented test is
`|a - b| ≤ atol + rtol * |b|` with the default `rtol = 1e-05`.
Comparisons against a missing value are `False` in pandas. -/
def opFilter (p1 p2 : List String) (op : String) (threshold tol : ℚ)
    (rows : List Row) : List Row :=
  rows.filter (fun r =>
    match pctRow p1 p2 r with
    | some p =>
      if op = "<=" then decide (p ≤ threshold)
      else if op = ">=" then decide (threshold ≤ p)
      else decide (|p - threshold| ≤ tol + |threshold| / 100000)
    | none => false)

/-! ### Distribution binner (source lines 943–981)

`pd.cut` with `bins = [b0, b1, b2, b3, b4]` and `include_lowest=True`
assigns `v` to the intervals `[b0, b1], (b1, b2], (b2, b3], (b3, b4]`
(right edges inclusive, lowest left edge included); values outside all
intervals get no bucket. -/

/-- Bucket index for operator `"<="`: `quarter = threshold / 4` (1 when
the threshold is 0) and bins `[0, q, 2q, 3q, threshold + 1e-6]`. -/
def binIndexLe (threshold v : ℚ) : Option (Fin 4) :=
  let q := if 0 < threshold then threshold / 4 else 1
  if 0 ≤ v ∧ v ≤ q then some 0
  else if q < v ∧ v ≤ 2 * q then some 1
  else if 2 * q < v ∧ v ≤ 3 * q then some 2
  else if 3 * q < v ∧ v ≤ threshold + 1 / 1000000 then some 3
  else none

/-- The bucket shape the claim words for `"<="`: `[0,5), [5,10),
[10,15), [15,20]` for threshold 20, lower edges inclusive. -/
def claimBucketLe (threshold v : ℚ) : Option (Fin 4) :=
  let q := threshold / 4
  if 0 ≤ v ∧ v < q then some 0
  else if q ≤ v ∧ v < 2 * q then some 1
  else if 2 * q ≤ v ∧ v < 3 * q then some 2
  else if 3 * q ≤ v ∧ v ≤ threshold then some 3
  else none

/-- The rows of `"<="`-distribution bucket `i`: the rows of the result
set whose percentage change falls in that bucket. -/
def distLe (p1 p2 : List String) (threshold : ℚ) (rows : List Row) (i : Fin 4) : List Row :=
  rows.filter (fun r =>
    match pctRow p1 p2 r with
    | some p => binIndexLe threshold p == some i
    | none => false)

/-- `df_merged["Selisih_Rata2"].max()` (missing values skipped). -/
def maxPct (p1 p2 : List String) (rows : List Row) : Option ℚ :=
  (rows.filterMap (pctRow p1 p2)).max?

/-- Bucket index for operator `">="`: four equal quarters from the
threshold to the observed maximum, bins
`[t, t+q, t+2q, t+3q, max + 1e-6]` with `q = (max - t) / 4`. -/
def binIndexGe (threshold maxv v : ℚ) : Option (Fin 4) :=
  let q := (maxv - threshold) / 4
  if threshold ≤ v ∧ v ≤ threshold + q then some 0
  else if threshold + q < v ∧ v ≤ threshold + 2 * q then some 1
  else if threshold + 2 * q < v ∧ v ≤ threshold + 3 * q then some 2
  else if threshold + 3 * q < v ∧ v ≤ maxv + 1 / 1000000 then some 3
  else none

/-- The rows of `">="`-distribution bucket `i`; the distribution is
skipped (empty) when there is no maximum or `max - threshold ≤ 0`. -/
def distGe (p1 p2 : List String) (threshold : ℚ) (rows : List Row) (i : Fin 4) : List Row :=
  match maxPct p1 p2 rows with
  | none => []
  | some maxv =>
    if maxv - threshold ≤ 0 then []
    else
      rows.filter (fun r =>
        match pctRow p1 p2 r with
        | some p => binIndexGe threshold maxv p == some i
        | none => false)

/-! ### Concrete example data used by witnesses and counterexamples -/

/-- A row whose Period-1/Period-2 averages give a percentage change of
exactly 20.1001. -/
def rowNearThreshold : Row := [("A", some 1000000), ("B", some 798999)]

/-- A row whose Period-1 average is 0. -/
def rowZeroAvg : Row := [("A", some 0), ("B", some 5)]

/-- A row whose percentage change is 10. -/
def rowTenPct : Row := [("A", some 100), ("B", some 90)]

/-- Ten reading columns, as in the spec's `apply_preset` example. -/
def tenCols : List String :=
  ["c1", "c2", "c3", "c4", "c5", "c6", "c7", "c8", "c9", "c10"]

/-! ## Theorems -/

/-- C1: evaluation of `parse_date_from_colname` at the three headers
the claim names.  The claim (and the source's own comment
`pattern YYYY-MM/MM-YYYY or contiguous YYYYMM`) says all three parse to
(2023, 11); the code instead returns (2023, 1) for `"REK_2023-11"`
(the month alternation `0?[1-9]|1[0-2]` matches the single digit `1`
first) and `none` for `"REK_Nov_2023"` (the group `[A-Za-z]{3,9}`
captures the leftmost letter run `REK`, which resolves to no month).
Only `"REK112023"` parses to (2023, 11). -/
theorem parse_date_examples_eval :
    parse_date_from_colname "REK_2023-11" = some (2023, 1) ∧
    parse_date_from_colname "REK112023" = some (2023, 11) ∧
    parse_date_from_colname "REK_Nov_2023" = none := by
  decide

/-- C5: `normalize_value_for_compare` sends `"Tdk Sesuai"`,
`"TIDAK  SESUAI"` and `"tidak_sesuai"` to `"tidak sesuai"`, and the
priority chain resolves `"tidak sesuai dan tidak terawat"` to
`"tidak sesuai"` (first rule wins), never to `"tidak terawat"`. -/
theorem normalize_examples :
    normalize_value_for_compare "Tdk Sesuai" = "tidak sesuai" ∧
    normalize_value_for_compare "TIDAK  SESUAI" = "tidak sesuai" ∧
    normalize_value_for_compare "tidak_sesuai" = "tidak sesuai" ∧
    normalize_value_for_compare "tidak sesuai dan tidak terawat" = "tidak sesuai" := by
  decide

/-- C2 counterexample: on a 3-column input with `n = 6` the code splits
at `3 / 2 = 1` (its guard is `window length ≤ n // 2`), while the
claim's rule ("fewer elements than the split point") keeps the split at
`n // 2 = 3`, which would make Period 2 empty. -/
theorem apply_preset_counterexample :
    apply_preset ["a", "b", "c"] 6 = (["a"], ["b", "c"]) ∧
    applyPresetClaim ["a", "b", "c"] 6 = (["a", "b", "c"], []) ∧
    apply_preset ["a", "b", "c"] 6 ≠ applyPresetClaim ["a", "b", "c"] 6 := by
  decide

/-- C6 counterexample: with operator `<=` and threshold 20 the code's
buckets are right-edge inclusive (`pd.cut` with `right=True`), so the
boundary value 5 lands in the first bucket and 15 in the third, while
the claim's lower-edge-inclusive buckets put 5 in the second bucket and
15 in the fourth. -/
theorem quarter_bin_counterexample :
    binIndexLe 20 5 = some 0 ∧ claimBucketLe 20 5 = some 1 ∧
    binIndexLe 20 15 = some 2 ∧ claimBucketLe 20 15 = some 3 := by
  norm_num [binIndexLe, claimBucketLe]

/-- The Period-1 average of the 20.1001-row. -/
lemma mean_rowNT_1 : meanCols ["A"] rowNearThreshold = some 1000000 := by
  simp [meanCols, getCell, rowNearThreshold, List.lookup, List.filterMap]

/-- The Period-2 average of the 20.1001-row. -/
lemma mean_rowNT_2 : meanCols ["B"] rowNearThreshold = some 798999 := by
  simp [meanCols, getCell, rowNearThreshold, List.lookup, List.filterMap]

/-- The percentage change of the 20.1001-row. -/
lemma pct_rowNT : pctRow ["A"] ["B"] rowNearThreshold = some (201001 / 10000) := by
  rw [pctRow, mean_rowNT_1, mean_rowNT_2]
  norm_num

/-- C7 counterexample: `np.isclose(pct, threshold, atol=tol)` keeps its
default relative tolerance `rtol = 1e-05`, so with threshold 20 and
tolerance 0.1 a row with percentage change 20.1001 is kept by the code
(`0.1001 ≤ 0.1 + 20⋅10⁻⁵ = 0.1002`) although `|20.1001 − 20| ≤ 0.1`
fails, contradicting the claim that `==` keeps exactly the rows with
`|p − threshold| ≤ tolerance`. -/
theorem isclose_counterexample :
    opFilter ["A"] ["B"] "==" 20 (1 / 10) [rowNearThreshold] = [rowNearThreshold] ∧
    pctRow ["A"] ["B"] rowNearThreshold = some (201001 / 10000) ∧
    ¬ (|(201001 / 10000 : ℚ) - 20| ≤ 1 / 10) := by
  refine ⟨?_, pct_rowNT, ?_⟩
  · have h : |(201001 / 10000 : ℚ) - 20| ≤ 10⁻¹ + 20 / 100000 := by
      rw [abs_le]; norm_num
    simp [opFilter, List.filter, pct_rowNT, decide_eq_true h]
  · rw [abs_le]; norm_num

/-- C3: when the Period-1 average is 0, `replace(0, pd.NA)` makes the
denominator missing, so the percentage change is missing (`none`, never
an error or an infinite value in this total model), and the
`notna() & (… ≥ 0)` stage drops the row from every input. -/
theorem pct_missing_of_zero_avg (p1 p2 : List String) (r : Row)
    (h : meanCols p1 r = some 0) :
    pctRow p1 p2 r = none ∧ ∀ rows : List Row, r ∉ dropStage p1 p2 rows := by
  have hpct : pctRow p1 p2 r = none := by
    unfold pctRow
    rw [h]
    cases meanCols p2 r <;> simp
  refine ⟨hpct, fun rows hr => ?_⟩
  rw [dropStage, List.mem_filter, hpct] at hr
  simp at hr

/-- Witness for C3 at a concrete row with Period-1 average 0. -/
theorem pct_missing_of_zero_avg_witness :
    meanCols ["A"] rowZeroAvg = some 0 ∧
    pctRow ["A"] ["B"] rowZeroAvg = none ∧
    ∀ rows : List Row, rowZeroAvg ∉ dropStage ["A"] ["B"] rows := by
  have h : meanCols ["A"] rowZeroAvg = some 0 := by
    simp [meanCols, getCell, rowZeroAvg, List.lookup, List.filterMap]
  have h2 := pct_missing_of_zero_avg ["A"] ["B"] rowZeroAvg h
  exact ⟨h, h2.1, h2.2⟩

/-- C4: every row of the threshold-filtered output — and of every
`<=`-distribution bucket and every `>=`-distribution bucket built from
it — has a present, non-negative percentage change, for every operator
string, threshold and tolerance: the missing/negative drop is
unconditional and precedes the threshold comparison. -/
theorem dropped_rows_nonneg (p1 p2 : List String) (op : String) (threshold tol : ℚ)
    (rows : List Row) (r : Row) :
    (r ∈ opFilter p1 p2 op threshold tol (dropStage p1 p2 rows) →
      ∃ p, pctRow p1 p2 r = some p ∧ 0 ≤ p) ∧
    (∀ i, r ∈ distLe p1 p2 threshold (opFilter p1 p2 op threshold tol (dropStage p1 p2 rows)) i →
      ∃ p, pctRow p1 p2 r = some p ∧ 0 ≤ p) ∧
    (∀ i, r ∈ distGe p1 p2 threshold (opFilter p1 p2 op threshold tol (dropStage p1 p2 rows)) i →
      ∃ p, pctRow p1 p2 r = some p ∧ 0 ≤ p) := by
  have hdrop : ∀ rows' : List Row, r ∈ dropStage p1 p2 rows' →
      ∃ p, pctRow p1 p2 r = some p ∧ 0 ≤ p := by
    intro rows' hr
    rw [dropStage, List.mem_filter] at hr
    rcases hp : pctRow p1 p2 r with _ | p
    · rw [hp] at hr; simp at hr
    · rw [hp] at hr
      exact ⟨p, rfl, by simpa using hr.2⟩
  have hop : ∀ rows' : List Row, r ∈ opFilter p1 p2 op threshold tol rows' → r ∈ rows' := by
    intro rows' hr
    exact (List.mem_filter.mp (by rw [opFilter] at hr; exact hr)).1
  have hdistLe : ∀ i (rows' : List Row), r ∈ distLe p1 p2 threshold rows' i → r ∈ rows' := by
    intro i rows' hr
    rw [distLe, List.mem_filter] at hr
    exact hr.1
  have hdistGe : ∀ i (rows' : List Row), r ∈ distGe p1 p2 threshold rows' i → r ∈ rows' := by
    intro i rows' hr
    rw [distGe] at hr
    rcases hm : maxPct p1 p2 rows' with _ | maxv
    · rw [hm] at hr; simp at hr
    · rw [hm] at hr
      by_cases hs : maxv - threshold ≤ 0
      · simp [hs] at hr
      · simp only [hs, if_neg, if_false] at hr
        exact (List.mem_filter.mp hr).1
  exact ⟨fun hr => hdrop _ (hop _ hr),
    fun i hr => hdrop _ (hop _ (hdistLe i _ hr)),
    fun i hr => hdrop _ (hop _ (hdistGe i _ hr))⟩

/-- Witness for C4 at a concrete pipeline run (pct = 10, kept by `<=` 20). -/
theorem dropped_rows_nonneg_witness :
    rowTenPct ∈ opFilter ["A"] ["B"] "<=" 20 (1 / 10) (dropStage ["A"] ["B"] [rowTenPct]) ∧
    ∃ p, pctRow ["A"] ["B"] rowTenPct = some p ∧ 0 ≤ p := by
  have hpct : pctRow ["A"] ["B"] rowTenPct = some 10 := by
    have hA : meanCols ["A"] rowTenPct = some 100 := by
      simp [meanCols, getCell, rowTenPct, List.lookup, List.filterMap]
    have hB : meanCols ["B"] rowTenPct = some 90 := by
      simp [meanCols, getCell, rowTenPct, List.lookup, List.filterMap]
    rw [pctRow, hA, hB]
    norm_num
  have hd : dropStage ["A"] ["B"] [rowTenPct] = [rowTenPct] := by
    simp [dropStage, List.filter, hpct, decide_eq_true (show (0 : ℚ) ≤ 10 by norm_num)]
  have hmem : rowTenPct ∈ opFilter ["A"] ["B"] "<=" 20 (1 / 10) (dropStage ["A"] ["B"] [rowTenPct]) := by
    rw [hd]
    simp [opFilter, List.filter, hpct, decide_eq_true (show (10 : ℚ) ≤ 20 by norm_num)]
  exact ⟨hmem, (dropped_rows_nonneg ["A"] ["B"] "<=" 20 (1 / 10) [rowTenPct] rowTenPct).1 hmem⟩

/-- C7 (amended): `<=` keeps exactly the rows with `p ≤ threshold`,
`>=` exactly those with `p ≥ threshold`, and `==` exactly those with
`|p − threshold| ≤ tolerance + |threshold| · 10⁻⁵`, the documented
`np.isclose` test with its default relative tolerance. -/
theorem op_filter_amended (p1 p2 : List String) (threshold tol : ℚ) (rows : List Row) (r : Row) :
    (r ∈ opFilter p1 p2 "<=" threshold tol rows ↔
      r ∈ rows ∧ ∃ p, pctRow p1 p2 r = some p ∧ p ≤ threshold) ∧
    (r ∈ opFilter p1 p2 ">=" threshold tol rows ↔
      r ∈ rows ∧ ∃ p, pctRow p1 p2 r = some p ∧ threshold ≤ p) ∧
    (r ∈ opFilter p1 p2 "==" threshold tol rows ↔
      r ∈ rows ∧ ∃ p, pctRow p1 p2 r = some p ∧ |p - threshold| ≤ tol + |threshold| / 100000) := by
  refine ⟨?_, ?_, ?_⟩ <;>
  · rw [opFilter, List.mem_filter]
    rcases hp : pctRow p1 p2 r with _ | p <;> simp [hp]

/-- Witness for C7's amended characterisation at a concrete row. -/
theorem op_filter_amended_witness :
    rowTenPct ∈ opFilter ["A"] ["B"] "<=" 20 (1 / 10) [rowTenPct] ↔
      rowTenPct ∈ [rowTenPct] ∧ ∃ p, pctRow ["A"] ["B"] rowTenPct = some p ∧ p ≤ 20 :=
  (op_filter_amended ["A"] ["B"] 20 (1 / 10) [rowTenPct] rowTenPct).1

/-- C6 (amended): with operator `<=` and threshold 20 the quarter is 5
and every value in `[0, 20]` lands in exactly one bucket (`binIndexLe`
is a function, so at most one; the theorem shows at least one and
characterises it): `[0,5]`, `(5,10]`, `(10,15]` or `(15, 20+10⁻⁶]` —
right edges inclusive — and 20 itself lands in the last bucket. -/
theorem quarter_bin_amended (v : ℚ) (h0 : 0 ≤ v) (h1 : v ≤ 20) :
    (∃ i : Fin 4, binIndexLe 20 v = some i ∧
      ((i = 0 ∧ 0 ≤ v ∧ v ≤ 5) ∨ (i = 1 ∧ 5 < v ∧ v ≤ 10) ∨
       (i = 2 ∧ 10 < v ∧ v ≤ 15) ∨ (i = 3 ∧ 15 < v ∧ v ≤ 20 + 1 / 1000000))) ∧
    binIndexLe 20 20 = some 3 := by
  have hq : binIndexLe 20 v =
      (if 0 ≤ v ∧ v ≤ 5 then some 0
       else if 5 < v ∧ v ≤ 10 then some 1
       else if 10 < v ∧ v ≤ 15 then some 2
       else if 15 < v ∧ v ≤ 20 + 1 / 1000000 then some 3
       else none) := by
    norm_num [binIndexLe]
  constructor
  · rcases le_or_lt v 5 with h5 | h5
    · exact ⟨0, by rw [hq, if_pos ⟨h0, h5⟩], Or.inl ⟨rfl, h0, h5⟩⟩
    · rcases le_or_lt v 10 with ha | ha
      · refine ⟨1, ?_, Or.inr (Or.inl ⟨rfl, h5, ha⟩)⟩
        rw [hq, if_neg (by push_neg; intro _; linarith), if_pos ⟨h5, ha⟩]
      · rcases le_or_lt v 15 with hb | hb
        · refine ⟨2, ?_, Or.inr (Or.inr (Or.inl ⟨rfl, ha, hb⟩))⟩
          rw [hq, if_neg (by push_neg; intro _; linarith),
            if_neg (by push_neg; intro _; linarith), if_pos ⟨ha, hb⟩]
        · refine ⟨3, ?_, Or.inr (Or.inr (Or.inr ⟨rfl, hb, by linarith⟩))⟩
          rw [hq, if_neg (by push_neg; intro _; linarith),
            if_neg (by push_neg; intro _; linarith),
            if_neg (by push_neg; intro _; linarith), if_pos ⟨hb, by linarith⟩]
  · norm_num [binIndexLe]

/-- Witness for C6's amended bucket characterisation at the boundary
value 5. -/
theorem quarter_bin_amended_witness :
    ((0 : ℚ) ≤ 5 ∧ (5 : ℚ) ≤ 20) ∧
    ((∃ i : Fin 4, binIndexLe 20 5 = some i ∧
      ((i = 0 ∧ (0 : ℚ) ≤ 5 ∧ (5 : ℚ) ≤ 5) ∨ (i = 1 ∧ (5 : ℚ) < 5 ∧ (5 : ℚ) ≤ 10) ∨
       (i = 2 ∧ (10 : ℚ) < 5 ∧ (5 : ℚ) ≤ 15) ∨
       (i = 3 ∧ (15 : ℚ) < 5 ∧ (5 : ℚ) ≤ 20 + 1 / 1000000))) ∧
    binIndexLe 20 20 = some 3) :=
  ⟨⟨by norm_num, by norm_num⟩, quarter_bin_amended 5 (by norm_num) (by norm_num)⟩

/-- C2 (amended): for every preset `n ∈ {3, 6, 12, 24}` the two periods
partition the window of the last `n` columns (all columns when fewer
than `n` exist); the split point is `n / 2` unless the window has *at
most* `n / 2` elements, in which case it is half the window length. -/
theorem apply_preset_amended (cols : List String) (n : Nat)
    (_hn : n = 3 ∨ n = 6 ∨ n = 12 ∨ n = 24) :
    (apply_preset cols n).1 ++ (apply_preset cols n).2
        = (if cols.length < n then cols else cols.drop (cols.length - n)) ∧
    (apply_preset cols n).1.length
        = (if (if cols.length < n then cols else cols.drop (cols.length - n)).length ≤ n / 2
            then (if cols.length < n then cols else cols.drop (cols.length - n)).length / 2
            else n / 2) ∧
    (apply_preset cols n).2.length
        = (if cols.length < n then cols else cols.drop (cols.length - n)).length
          - (apply_preset cols n).1.length ∧
    (n ≤ cols.length → (if cols.length < n then cols else cols.drop (cols.length - n)).length = n) := by
  simp only [apply_preset]
  set w := if cols.length < n then cols else cols.drop (cols.length - n) with hw
  set s := if w.length ≤ n / 2 then w.length / 2 else n / 2 with hs
  have hsw : s ≤ w.length := by
    rw [hs]
    split
    · omega
    · omega
  refine ⟨List.take_append_drop s w, ?_, ?_, ?_⟩
  · rw [List.length_take]
    omega
  · rw [List.length_drop, List.length_take]
    omega
  · intro h
    rw [hw, if_neg (by omega), List.length_drop]
    omega

/-- Witness for C2's amended split rule on the spec's 10-column
example with the 6-month preset: periods `c5–c7` and `c8–c10`. -/
theorem apply_preset_amended_witness :
    (6 = 3 ∨ 6 = 6 ∨ 6 = 12 ∨ 6 = 24) ∧
    ((apply_preset tenCols 6).1 ++ (apply_preset tenCols 6).2
        = (if tenCols.length < 6 then tenCols else tenCols.drop (tenCols.length - 6)) ∧
    (apply_preset tenCols 6).1.length
        = (if (if tenCols.length < 6 then tenCols else tenCols.drop (tenCols.length - 6)).length ≤ 6 / 2
            then (if tenCols.length < 6 then tenCols else tenCols.drop (tenCols.length - 6)).length / 2
            else 6 / 2) ∧
    (apply_preset tenCols 6).2.length
        = (if tenCols.length < 6 then tenCols else tenCols.drop (tenCols.length - 6)).length
          - (apply_preset tenCols 6).1.length ∧
    (6 ≤ tenCols.length →
      (if tenCols.length < 6 then tenCols else tenCols.drop (tenCols.length - 6)).length = 6)) ∧
    apply_preset tenCols 6 = (["c5", "c6", "c7"], ["c8", "c9", "c10"]) :=
  ⟨by decide, apply_preset_amended tenCols 6 (by decide), by decide⟩

/-- Transitivity of the date comparison. -/
lemma dateLe_trans (a b c : String × Option (Nat × Nat)) :
    dateLe a b → dateLe b c → dateLe a c := by
  simp only [dateLe, decide_eq_true_eq]
  omega

/-- Totality of the date comparison. -/
lemma dateLe_total (a b : String × Option (Nat × Nat)) :
    dateLe a b || dateLe b a := by
  simp only [dateLe, Bool.or_eq_true, decide_eq_true_eq]
  omega

/-- Unfolding of `sortedColsOf` (definitional). -/
lemma sortedColsOf_eq (cols : List String) :
    sortedColsOf cols
      = if ((cols.map (fun col => (col, parse_date_from_colname col))).filter
            (fun p => p.2.isSome)).isEmpty
        then cols
        else (((cols.map (fun col => (col, parse_date_from_colname col))).filter
            (fun p => p.2.isSome)).mergeSort dateLe).map (fun p => p.1)
          ++ ((cols.map (fun col => (col, parse_date_from_colname col))).filter
            (fun p => p.2.isNone)).map (fun p => p.1) := rfl

/-- C8: the ordering places the columns with a successfully parsed
date first, sorted ascending by (year, month); the columns whose parse
failed follow, in their original relative order (they are exactly the
original list filtered to the unparsed ones, and `List.filter`
preserves relative order). -/
theorem sorted_cols_spec (cols : List String) :
    ∃ ps : List String,
      sortedColsOf cols
          = ps ++ cols.filter (fun c => (parse_date_from_colname c).isNone) ∧
      ps.Perm (cols.filter (fun c => (parse_date_from_colname c).isSome)) ∧
      ps.Pairwise (fun a b =>
        dateLe (a, parse_date_from_colname a) (b, parse_date_from_colname b) = true) := by
  have hA : (cols.map (fun col => (col, parse_date_from_colname col))).filter
        (fun p => p.2.isSome)
      = (cols.filter (fun c => (parse_date_from_colname c).isSome)).map
        (fun col => (col, parse_date_from_colname col)) := by
    rw [List.filter_map]
    rfl
  have hB : ((cols.map (fun col => (col, parse_date_from_colname col))).filter
        (fun p => p.2.isNone)).map (fun p => p.1)
      = cols.filter (fun c => (parse_date_from_colname c).isNone) := by
    rw [List.filter_map, List.map_map]
    simp only [Function.comp_def, List.map_id']
  by_cases hp : ((cols.map (fun col => (col, parse_date_from_colname col))).filter
      (fun p => p.2.isSome)).isEmpty
  · -- nothing parsed: the source keeps the original column list
    rw [List.isEmpty_iff] at hp
    have hnone : ∀ c ∈ cols, (parse_date_from_colname c).isNone := by
      rw [hA] at hp
      rw [List.map_eq_nil_iff, List.filter_eq_nil_iff] at hp
      intro c hc
      have := hp c hc
      simp only [Option.isNone_iff_eq_none]
      cases h : parse_date_from_colname c
      · rfl
      · exact absurd (by simp [h]) this
    refine ⟨[], ?_, ?_, List.Pairwise.nil⟩
    · rw [sortedColsOf_eq, if_pos (List.isEmpty_iff.mpr hp)]
      rw [List.nil_append, List.filter_eq_self.mpr hnone]
    · rw [hA] at hp
      rw [List.map_eq_nil_iff] at hp
      rw [hp]
  · refine ⟨(((cols.map (fun col => (col, parse_date_from_colname col))).filter
        (fun p => p.2.isSome)).mergeSort dateLe).map (fun p => p.1), ?_, ?_, ?_⟩
    · rw [sortedColsOf_eq, if_neg hp, hB]
    · have hperm := List.Perm.map (fun p : String × Option (Nat × Nat) => p.1)
        (List.mergeSort_perm ((cols.map (fun col => (col, parse_date_from_colname col))).filter
          (fun p => p.2.isSome)) dateLe)
      refine hperm.trans ?_
      rw [hA, List.map_map]
      simp only [Function.comp_def, List.map_id']
      exact List.Perm.refl _
    · have hsorted := List.sorted_mergeSort dateLe_trans dateLe_total
        ((cols.map (fun col => (col, parse_date_from_colname col))).filter (fun p => p.2.isSome))
      rw [List.pairwise_map]
      refine hsorted.imp_of_mem ?_
      intro a b ha hb hle
      have hmem : ∀ p : String × Option (Nat × Nat),
          p ∈ ((cols.map (fun col => (col, parse_date_from_colname col))).filter
            (fun q => q.2.isSome)).mergeSort dateLe →
          p.2 = parse_date_from_colname p.1 := by
        intro p hpmem
        rw [List.mem_mergeSort] at hpmem
        have hpm := List.mem_of_mem_filter hpmem
        rw [List.mem_map] at hpm
        obtain ⟨c, _, hc⟩ := hpm
        rw [← hc]
      have ha2 : (a.1, parse_date_from_colname a.1) = a := by
        rw [← hmem a ha]
      have hb2 : (b.1, parse_date_from_colname b.1) = b := by
        rw [← hmem b hb]
      rw [ha2, hb2]
      exact hle

/-- Invariant of the fallback loop of `find_column_by_keywords`: the
running count never decreases, bounds every count seen, is attained by
some column when it moved, and when it moved the stored best column is
the first column attaining the final count. -/
lemma bestAux_spec (kws : List String) (cols : List String) :
    ∀ (best : Option String) (bc : Nat),
      bc ≤ (bestAux kws cols (best, bc)).2 ∧
      (∀ col ∈ cols, kwCount kws col ≤ (bestAux kws cols (best, bc)).2) ∧
      ((bestAux kws cols (best, bc)).2 = bc → (bestAux kws cols (best, bc)).1 = best) ∧
      ((bestAux kws cols (best, bc)).2 = bc ∨
        ∃ col ∈ cols, kwCount kws col = (bestAux kws cols (best, bc)).2) ∧
      (bc < (bestAux kws cols (best, bc)).2 →
        ∃ c pre suf, (bestAux kws cols (best, bc)).1 = some c ∧
          cols = pre ++ c :: suf ∧ kwCount kws c = (bestAux kws cols (best, bc)).2 ∧
          ∀ col ∈ pre, kwCount kws col < (bestAux kws cols (best, bc)).2) := by
  induction cols with
  | nil =>
    intro best bc
    simp [bestAux]
  | cons col rest ih =>
    intro best bc
    simp only [bestAux]
    by_cases h : kwCount kws col > bc
    · rw [if_pos h]
      obtain ⟨ih1, ih2, ih3, ih4, ih5⟩ := ih (some col) (kwCount kws col)
      refine ⟨by omega, ?_, by intro he; omega, ?_, ?_⟩
      · intro c hc
        rcases List.mem_cons.mp hc with rfl | hc
        · exact ih1
        · exact ih2 c hc
      · rcases ih4 with he | ⟨c, hc, hce⟩
        · exact Or.inr ⟨col, List.mem_cons_self col rest, he.symm ▸ rfl⟩
        · exact Or.inr ⟨c, List.mem_cons_of_mem col hc, hce⟩
      · intro _
        rcases Nat.eq_or_lt_of_le ih1 with he | hlt
        · refine ⟨col, [], rest, ih3 he.symm, rfl, he ▸ rfl, ?_⟩
          intro c hc
          exact absurd hc (List.not_mem_nil c)
        · obtain ⟨c, pre, suf, hc1, hc2, hc3, hc4⟩ := ih5 hlt
          refine ⟨c, col :: pre, suf, hc1, by rw [hc2]; rfl, hc3, ?_⟩
          intro x hx
          rcases List.mem_cons.mp hx with rfl | hx
          · omega
          · exact hc4 x hx
    · rw [if_neg h]
      push_neg at h
      obtain ⟨ih1, ih2, ih3, ih4, ih5⟩ := ih best bc
      refine ⟨ih1, ?_, ih3, ?_, ?_⟩
      · intro c hc
        rcases List.mem_cons.mp hc with rfl | hc
        · omega
        · exact ih2 c hc
      · rcases ih4 with he | ⟨c, hc, hce⟩
        · exact Or.inl he
        · exact Or.inr ⟨c, List.mem_cons_of_mem col hc, hce⟩
      · intro hlt
        obtain ⟨c, pre, suf, hc1, hc2, hc3, hc4⟩ := ih5 hlt
        refine ⟨c, col :: pre, suf, hc1, by rw [hc2]; rfl, hc3, ?_⟩
        intro x hx
        rcases List.mem_cons.mp hx with rfl | hx
        · omega
        · exact hc4 x hx
/-- C9: `find_column_by_keywords` returns (1) a column containing all
keywords when one exists, (2) otherwise a column with the maximal
keyword count, the earliest such column (every column before it has a
strictly smaller count), provided some column contains at least one
keyword, and (3) `none` when no column contains any keyword. -/
theorem find_column_spec (cols kws : List String) :
    ((∃ col ∈ cols, kwAll kws col) →
      ∃ c, find_column_by_keywords cols kws = some c ∧ c ∈ cols ∧ kwAll kws c) ∧
    ((¬ ∃ col ∈ cols, kwAll kws col) → (∃ col ∈ cols, 0 < kwCount kws col) →
      ∃ c pre suf, find_column_by_keywords cols kws = some c ∧
        cols = pre ++ c :: suf ∧
        (∀ col ∈ cols, kwCount kws col ≤ kwCount kws c) ∧
        (∀ col ∈ pre, kwCount kws col < kwCount kws c)) ∧
    ((¬ ∃ col ∈ cols, kwAll kws col) → (∀ col ∈ cols, kwCount kws col = 0) →
      find_column_by_keywords cols kws = none) := by
  refine ⟨?_, ?_, ?_⟩
  · intro hex
    have hsome : (cols.find? (fun col => kwAll kws col)).isSome := by
      rw [List.find?_isSome]
      obtain ⟨c, hc, hall⟩ := hex
      exact ⟨c, hc, hall⟩
    obtain ⟨c, hc⟩ := Option.isSome_iff_exists.mp hsome
    refine ⟨c, ?_, List.mem_of_find?_eq_some hc, List.find?_some hc⟩
    rw [find_column_by_keywords, hc]
  · intro hnone hpos
    have hfind : cols.find? (fun col => kwAll kws col) = none := by
      rw [List.find?_eq_none]
      intro x hx hall
      exact hnone ⟨x, hx, hall⟩
    obtain ⟨h1, h2, h3, h4, h5⟩ := bestAux_spec kws cols none 0
    have hr2 : 0 < (bestAux kws cols (none, 0)).2 := by
      obtain ⟨c, hc, hcp⟩ := hpos
      have := h2 c hc
      omega
    obtain ⟨c, pre, suf, hc1, hc2, hc3, hc4⟩ := h5 hr2
    refine ⟨c, pre, suf, ?_, hc2, ?_, ?_⟩
    · rw [find_column_by_keywords, hfind]
      simp only [if_pos hr2]
      exact hc1
    · intro col hcol
      have := h2 col hcol
      omega
    · intro col hcol
      have := hc4 col hcol
      omega
  · intro hnone hzero
    have hfind : cols.find? (fun col => kwAll kws col) = none := by
      rw [List.find?_eq_none]
      intro x hx hall
      exact hnone ⟨x, hx, hall⟩
    obtain ⟨h1, h2, h3, h4, h5⟩ := bestAux_spec kws cols none 0
    have hr2 : (bestAux kws cols (none, 0)).2 = 0 := by
      rcases h4 with he | ⟨c, hc, hce⟩
      · exact he
      · rw [← hce]
        exact hzero c hc
    rw [find_column_by_keywords, hfind]
    simp [hr2]

/-- Witness for C9 at the LBKB building-condition category: headers
`["NAMA", "KONDISI BANGUNAN"]`, keywords `["KONDISI", "BANGUN"]`. -/
theorem find_column_spec_witness :
    (∃ col ∈ ["NAMA", "KONDISI BANGUNAN"], kwAll ["KONDISI", "BANGUN"] col) ∧
    ∃ c, find_column_by_keywords ["NAMA", "KONDISI BANGUNAN"] ["KONDISI", "BANGUN"] = some c ∧
      c ∈ ["NAMA", "KONDISI BANGUNAN"] ∧ kwAll ["KONDISI", "BANGUN"] c :=
  ⟨by decide, (find_column_spec ["NAMA", "KONDISI BANGUNAN"] ["KONDISI", "BANGUN"]).1 (by decide)⟩

/-- Mapping a function that fixes every element of a list fixes the list. -/
lemma map_fix {α : Type} (f : α → α) (l : List α) (h : ∀ a ∈ l, f a = a) :
    l.map f = l :=
  (List.map_congr_left h).trans (List.map_id l)

/-- Lower-case alphanumerics are not whitespace. -/
lemma lowerAlnum_not_ws (c : Char) (h : isLowerAlnumC c) : ¬ isWsC c := by
  intro hws
  have hn : c.toNat = 32 ∨ c.toNat = 9 ∨ c.toNat = 10 ∨ c.toNat = 13 ∨
      c.toNat = 11 ∨ c.toNat = 12 := by
    simp only [isWsC, Bool.or_eq_true, decide_eq_true_eq] at hws
    rcases hws with ((((h1 | h1) | h1) | h1) | h1) | h1 <;> rw [h1] <;> decide
  simp only [isLowerAlnumC, Bool.or_eq_true, Bool.and_eq_true, decide_eq_true_eq] at h
  omega

/-- Characters produced by `cleanSym` are lower-case alphanumeric or whitespace. -/
lemma cleanSym_good (c : Char) : isLowerAlnumC (cleanSym c) || isWsC (cleanSym c) := by
  rw [cleanSym]
  by_cases h : (isLowerAlnumC c || isWsC c)
  · rw [if_pos h]; exact h
  · rw [if_neg h]; decide

/-- Lower-casing fixes lower-case alphanumerics and the space. -/
lemma toLowerC_fix (c : Char) (h : isLowerAlnumC c ∨ c = ' ') : toLowerC c = c := by
  rcases h with h | h
  · simp only [isLowerAlnumC, Bool.or_eq_true, Bool.and_eq_true, decide_eq_true_eq] at h
    rw [toLowerC, if_neg (by omega)]
  · subst h; decide

/-- Symbol cleaning fixes lower-case alphanumerics and the space. -/
lemma cleanSym_fix (c : Char) (h : isLowerAlnumC c ∨ c = ' ') : cleanSym c = c := by
  rcases h with h | h
  · rw [cleanSym, if_pos (by rw [h]; rfl)]
  · subst h; decide

/-- Every character of a `splitOnP` chunk fails the predicate and comes from the input. -/
lemma splitOnP_chunk_prop (p : Char → Bool) (m : List Char) :
    ∀ t ∈ m.splitOnP p, ∀ c ∈ t, ¬ p c ∧ c ∈ m := by
  induction m with
  | nil =>
    intro t ht c hc
    rw [List.splitOnP_nil] at ht
    rcases List.mem_singleton.mp ht with rfl
    exact absurd hc (List.not_mem_nil c)
  | cons a m ih =>
    intro t ht c hc
    rw [List.splitOnP_cons] at ht
    by_cases hpa : p a
    · rw [if_pos hpa] at ht
      rcases List.mem_cons.mp ht with rfl | ht
      · exact absurd hc (List.not_mem_nil c)
      · obtain ⟨h1, h2⟩ := ih t ht c hc
        exact ⟨h1, List.mem_cons_of_mem a h2⟩
    · rw [if_neg hpa] at ht
      cases heq : m.splitOnP p with
      | nil => exact absurd heq (List.splitOnP_ne_nil p m)
      | cons hd tl =>
        rw [heq, List.modifyHead_cons] at ht
        rcases List.mem_cons.mp ht with rfl | ht
        · rcases List.mem_cons.mp hc with rfl | hc
          · exact ⟨hpa, List.mem_cons_self c m⟩
          · obtain ⟨h1, h2⟩ := ih hd (heq ▸ List.mem_cons_self hd tl) c hc
            exact ⟨h1, List.mem_cons_of_mem a h2⟩
        · obtain ⟨h1, h2⟩ := ih t (heq ▸ List.mem_cons_of_mem hd ht) c hc
          exact ⟨h1, List.mem_cons_of_mem a h2⟩

/-- A token is nonempty and its characters are non-whitespace characters of the input. -/
lemma tokensOf_prop (m : List Char) :
    ∀ t ∈ tokensOf m, t ≠ [] ∧ ∀ c ∈ t, ¬ isWsC c ∧ c ∈ m := by
  intro t ht
  rw [tokensOf, List.mem_filter] at ht
  refine ⟨by simpa using ht.2, ?_⟩
  exact splitOnP_chunk_prop isWsC m t ht.1

/-- Token replacement preserves nonemptiness and lower-case alphanumeric content. -/
lemma replTok_out (t : List Char) (hne : t ≠ []) (hch : ∀ c ∈ t, isLowerAlnumC c) :
    replTok t ≠ [] ∧ ∀ c ∈ replTok t, isLowerAlnumC c := by
  rw [replTok]
  split_ifs <;> first
    | exact ⟨by decide, by decide⟩
    | exact ⟨hne, hch⟩

/-- Token replacement is idempotent. -/
lemma replTok_idem (t : List Char) : replTok (replTok t) = replTok t := by
  have h : replTok t = "tidak".toList ∨ replTok t = "ya".toList ∨ replTok t = t := by
    rw [replTok]
    split_ifs <;> simp
  rcases h with h | h | h
  · rw [h]; decide
  · rw [h]; decide
  · rw [h]; exact h
/-- Unfolding of `joinToks` on a single token. -/
lemma joinToks_single (t : List Char) : joinToks [t] = t := rfl

/-- Unfolding of `joinToks` on two or more tokens. -/
lemma joinToks_cons_cons (t t2 : List Char) (ts : List (List Char)) :
    joinToks (t :: t2 :: ts) = t ++ ' ' :: joinToks (t2 :: ts) := rfl

/-- The join of nonempty whitespace-free tokens starts with a non-whitespace character. -/
lemma joinToks_shape (ts : List (List Char)) (hts : ts ≠ [])
    (hne : ∀ t ∈ ts, t ≠ []) (hws : ∀ t ∈ ts, ∀ c ∈ t, ¬ isWsC c) :
    ∃ c w, joinToks ts = c :: w ∧ ¬ isWsC c := by
  match ts with
  | [] => exact absurd rfl hts
  | [t] =>
    match t, hne t (List.mem_singleton.mpr rfl) with
    | c :: w, _ =>
      exact ⟨c, w, rfl, hws (c :: w) (List.mem_singleton.mpr rfl) c (List.mem_cons_self c w)⟩
  | t :: t2 :: ts2 =>
    match t, hne t (List.mem_cons_self t (t2 :: ts2)) with
    | c :: w, _ =>
      refine ⟨c, w ++ ' ' :: joinToks (t2 :: ts2), ?_, ?_⟩
      · rfl
      · exact hws (c :: w) (List.mem_cons_self _ _) c (List.mem_cons_self c w)

/-- The join of nonempty whitespace-free tokens ends with a non-whitespace character. -/
lemma joinToks_rev_shape (ts : List (List Char)) (hts : ts ≠ [])
    (hne : ∀ t ∈ ts, t ≠ []) (hws : ∀ t ∈ ts, ∀ c ∈ t, ¬ isWsC c) :
    ∃ c w, (joinToks ts).reverse = c :: w ∧ ¬ isWsC c := by
  induction ts with
  | nil => exact absurd rfl hts
  | cons t ts2 ih =>
    cases ts2 with
    | nil =>
      cases heq : t.reverse with
      | nil =>
        exact absurd (List.reverse_eq_nil_iff.mp heq) (hne t (List.mem_singleton.mpr rfl))
      | cons c w =>
        refine ⟨c, w, by rw [joinToks_single, heq], ?_⟩
        have : c ∈ t.reverse := by rw [heq]; exact List.mem_cons_self c w
        exact hws t (List.mem_singleton.mpr rfl) c (List.mem_reverse.mp this)
    | cons t2 ts3 =>
      obtain ⟨c, w, hcw, hc⟩ := ih (List.cons_ne_nil t2 ts3)
        (fun x hx => hne x (List.mem_cons_of_mem t hx))
        (fun x hx => hws x (List.mem_cons_of_mem t hx))
      refine ⟨c, w ++ (' ' :: t.reverse), ?_, hc⟩
      rw [joinToks_cons_cons, List.reverse_append, List.reverse_cons, hcw]
      simp [List.append_assoc]

/-- Stripping fixes the join of nonempty whitespace-free tokens. -/
lemma stripWs_joinToks (ts : List (List Char))
    (hne : ∀ t ∈ ts, t ≠ []) (hws : ∀ t ∈ ts, ∀ c ∈ t, ¬ isWsC c) :
    stripWs (joinToks ts) = joinToks ts := by
  cases ts with
  | nil => rfl
  | cons t ts2 =>
    obtain ⟨c, w, hcw, hc⟩ := joinToks_shape (t :: ts2) (List.cons_ne_nil t ts2) hne hws
    obtain ⟨c2, w2, hcw2, hc2⟩ := joinToks_rev_shape (t :: ts2) (List.cons_ne_nil t ts2) hne hws
    rw [stripWs, hcw, List.dropWhile_cons_of_neg hc, ← hcw, hcw2,
      List.dropWhile_cons_of_neg hc2, ← hcw2, List.reverse_reverse]

/-- Characters of a join of lower-case alphanumeric tokens are lower-case alphanumeric or a space. -/
lemma joinToks_chars (ts : List (List Char))
    (hch : ∀ t ∈ ts, ∀ c ∈ t, isLowerAlnumC c) :
    ∀ c ∈ joinToks ts, isLowerAlnumC c ∨ c = ' ' := by
  induction ts with
  | nil => intro c hc; exact absurd hc (List.not_mem_nil c)
  | cons t ts2 ih =>
    cases ts2 with
    | nil =>
      intro c hc
      exact Or.inl (hch t (List.mem_singleton.mpr rfl) c hc)
    | cons t2 ts3 =>
      intro c hc
      rw [joinToks_cons_cons] at hc
      rcases List.mem_append.mp hc with hc | hc
      · exact Or.inl (hch t (List.mem_cons_self _ _) c hc)
      · rcases List.mem_cons.mp hc with rfl | hc
        · exact Or.inr rfl
        · exact ih (fun x hx => hch x (List.mem_cons_of_mem t hx)) c hc

/-- Tokenising is a left inverse of joining on nonempty whitespace-free tokens. -/
lemma tokensOf_joinToks (ts : List (List Char))
    (hne : ∀ t ∈ ts, t ≠ []) (hws : ∀ t ∈ ts, ∀ c ∈ t, ¬ isWsC c) :
    tokensOf (joinToks ts) = ts := by
  induction ts with
  | nil => simp [tokensOf, joinToks, List.splitOnP_nil]
  | cons t ts2 ih =>
    cases ts2 with
    | nil =>
      rw [joinToks_single, tokensOf,
        List.splitOnP_eq_single isWsC t (fun c hc => hws t (List.mem_singleton.mpr rfl) c hc)]
      have : ¬ t.isEmpty := by
        simpa using hne t (List.mem_singleton.mpr rfl)
      simp [List.filter, this]
    | cons t2 ts3 =>
      rw [joinToks_cons_cons, tokensOf,
        List.splitOnP_first isWsC t
          (fun c hc => hws t (List.mem_cons_self _ _) c hc) ' ' (by decide) _]
      have hne2 : ∀ x ∈ t2 :: ts3, x ≠ [] := fun x hx => hne x (List.mem_cons_of_mem t hx)
      have hws2 : ∀ x ∈ t2 :: ts3, ∀ c ∈ x, ¬ isWsC c :=
        fun x hx => hws x (List.mem_cons_of_mem t hx)
      have htne : ¬ t.isEmpty := by simpa using hne t (List.mem_cons_self _ _)
      rw [List.filter]
      rw [tokensOf] at ih
      simp only [htne]
      rw [ih hne2 hws2]
      simp [htne]
/-- The cleaning pipeline fixes the join of nonempty lower-case alphanumeric tokens that are `replTok` fixed points. -/
lemma cleanPhase_fix (ts : List (List Char))
    (hne : ∀ t ∈ ts, t ≠ []) (hch : ∀ t ∈ ts, ∀ c ∈ t, isLowerAlnumC c)
    (hfix : ∀ t ∈ ts, replTok t = t) :
    cleanPhase (joinToks ts) = joinToks ts := by
  have hws : ∀ t ∈ ts, ∀ c ∈ t, ¬ isWsC c :=
    fun t ht c hc => lowerAlnum_not_ws c (hch t ht c hc)
  have hgood : ∀ c ∈ joinToks ts, isLowerAlnumC c ∨ c = ' ' := joinToks_chars ts hch
  rw [cleanPhase, stripWs_joinToks ts hne hws,
    map_fix toLowerC _ (fun c hc => toLowerC_fix c (hgood c hc)),
    map_fix cleanSym _ (fun c hc => cleanSym_fix c (hgood c hc)),
    tokensOf_joinToks ts hne hws,
    map_fix replTok ts hfix]

/-- The cleaning pipeline of `normalize_value_for_compare` is idempotent. -/
lemma cleanPhase_idem (l : List Char) : cleanPhase (cleanPhase l) = cleanPhase l := by
  have hne0 : ∀ t ∈ tokensOf (((stripWs l).map toLowerC).map cleanSym), t ≠ [] :=
    fun t ht => (tokensOf_prop _ t ht).1
  have hch0 : ∀ t ∈ tokensOf (((stripWs l).map toLowerC).map cleanSym),
      ∀ c ∈ t, isLowerAlnumC c := by
    intro t ht c hc
    obtain ⟨hnws, hcm⟩ := (tokensOf_prop _ t ht).2 c hc
    obtain ⟨d, _, hd⟩ := List.mem_map.mp hcm
    have := cleanSym_good d
    rw [hd] at this
    rcases Bool.or_eq_true_iff.mp this with h | h
    · exact h
    · exact absurd h (by simpa using hnws)
  have hne : ∀ t ∈ (tokensOf (((stripWs l).map toLowerC).map cleanSym)).map replTok, t ≠ [] := by
    intro t ht
    obtain ⟨t0, ht0, rfl⟩ := List.mem_map.mp ht
    exact (replTok_out t0 (hne0 t0 ht0) (hch0 t0 ht0)).1
  have hch : ∀ t ∈ (tokensOf (((stripWs l).map toLowerC).map cleanSym)).map replTok,
      ∀ c ∈ t, isLowerAlnumC c := by
    intro t ht
    obtain ⟨t0, ht0, rfl⟩ := List.mem_map.mp ht
    exact (replTok_out t0 (hne0 t0 ht0) (hch0 t0 ht0)).2
  have hfix : ∀ t ∈ (tokensOf (((stripWs l).map toLowerC).map cleanSym)).map replTok,
      replTok t = t := by
    intro t ht
    obtain ⟨t0, _, rfl⟩ := List.mem_map.mp ht
    exact replTok_idem t0
  exact cleanPhase_fix _ hne hch hfix

/-- C10: `normalize_value_for_compare` is idempotent — normalising an
already-normalised value changes nothing, so normalised column values
and normalised user selections compare stably however many times the
normaliser is applied. -/
theorem normalize_idempotent (s : String) :
    normalize_value_for_compare (normalize_value_for_compare s)
      = normalize_value_for_compare s := by
  have hcanon : canonOf (cleanPhase s.toList) = "tidak sesuai".toList ∨
      canonOf (cleanPhase s.toList) = "tidak terawat".toList ∨
      canonOf (cleanPhase s.toList) = "sesuai".toList ∨
      canonOf (cleanPhase s.toList) = "terawat".toList ∨
      canonOf (cleanPhase s.toList) = cleanPhase s.toList := by
    rw [canonOf]
    split_ifs <;> simp
  show normalize_value_for_compare ⟨canonOf (cleanPhase s.toList)⟩
      = ⟨canonOf (cleanPhase s.toList)⟩
  rcases hcanon with h | h | h | h | h <;> rw [h]
  · decide
  · decide
  · decide
  · decide
  · show (⟨canonOf (cleanPhase (cleanPhase s.toList))⟩ : String) = ⟨cleanPhase s.toList⟩
    rw [cleanPhase_idem, h]

end PLN
